import Mathlib

/-!
Shallow embedding of the log-kv storage engine: `crates/engine/src/store.rs`
(the `Store`, its WAL and its segment list) and `crates/kv/src/protocol.rs`
(the wire framing), together with specification-level definitions used to
state the verified properties.  Segment file paths are represented relative
to the store directory.  The modules `memtable.rs`, `segment.rs` and
`util.rs` are not among the provided sources; the definitions taken from
them are modelled from the spec and say so in their doc comments.
-/

namespace LogKv

/-- Modelled from the spec: `Assignment` (crates/engine/src/util.rs, not among
the provided sources) is a (key, value) pair, both UTF-8 text, parsed from a
single WAL line of the form `key=value`. -/
structure Assignment where
  key : String
  value : String
deriving DecidableEq, Repr

/-- Modelled from the spec: split a character list at the first `=`; a list
with no `=` does not split. -/
def splitAtEq : List Char → Option (List Char × List Char)
  | [] => none
  | c :: rest =>
    if c = '=' then
      some ([], rest)
    else
      match splitAtEq rest with
      | some (k, v) => some (c :: k, v)
      | none => none

/-- Modelled from the spec: `Assignment::parse` reads a WAL line of the form
`key=value`, splitting at the first `=`; a line with no `=` does not parse. -/
def Assignment.parse (line : String) : Option Assignment :=
  match splitAtEq line.data with
  | some (k, v) => some ⟨⟨k⟩, ⟨v⟩⟩
  | none => none

/-- Modelled from the spec: `Memtable` (crates/engine/src/memtable.rs, not
among the provided sources) is an ordered mapping from key to value in
ascending key order with unique keys, represented by its entry list. -/
structure Memtable where
  entries : List (String × String)
deriving DecidableEq, Repr

/-- Memtable with no entries. -/
def Memtable.empty : Memtable := ⟨[]⟩

/-- Lexicographic strict order on character lists, by code point.  For UTF-8
text this coincides with the byte-wise order Rust uses on `String` keys. -/
def charListLt : List Char → List Char → Bool
  | [], [] => false
  | [], _ :: _ => true
  | _ :: _, [] => false
  | a :: as, b :: bs =>
    if a.toNat < b.toNat then true
    else if b.toNat < a.toNat then false
    else charListLt as bs

/-- Strict order on strings, by their character lists. -/
def strLt (a b : String) : Bool :=
  charListLt a.data b.data

/-- Modelled from the spec: insertion into the ascending entry list, inserting
or overwriting so that later `set` calls for the same key replace earlier
values. -/
def setEntries (key value : String) : List (String × String) → List (String × String)
  | [] => [(key, value)]
  | (k, v) :: rest =>
    if strLt key k then
      (key, value) :: (k, v) :: rest
    else if key = k then
      (key, value) :: rest
    else
      (k, v) :: setEntries key value rest

/-- Modelled from the spec: `Memtable::set` inserts or overwrites. -/
def Memtable.set (m : Memtable) (key value : String) : Memtable :=
  ⟨setEntries key value m.entries⟩

/-- First value associated with `key` in an entry list. -/
def lookupEntries (key : String) : List (String × String) → Option String
  | [] => none
  | (k, v) :: rest => if key = k then some v else lookupEntries key rest

/-- Modelled from the spec: `Memtable::get` is a local lookup. -/
def Memtable.get (m : Memtable) (key : String) : Option String :=
  lookupEntries key m.entries

/-- Modelled from the spec: `Memtable::iter` yields the (key, value) pairs in
ascending key order, the order of the entry list. -/
def Memtable.iter (m : Memtable) : List (String × String) := m.entries

/-- Well-formedness of a memtable: entries strictly ascending by key (hence
keys are unique). -/
def Memtable.WF (m : Memtable) : Prop :=
  m.entries.Pairwise (fun a b => strLt a.1 b.1 = true)

instance (m : Memtable) : Decidable m.WF :=
  inferInstanceAs
    (Decidable (m.entries.Pairwise (fun (a b : String × String) => strLt a.1 b.1 = true)))

/-- Embedded `Segment` (crates/engine/src/segment.rs, not among the provided
sources): the observable state manipulated by store.rs, a file name (relative
to the store directory) and the decoded (key, value) records of the file. -/
structure Segment where
  path : String
  records : List (String × String)
deriving DecidableEq, Repr

/-- Modelled from the spec: `Segment::get` scans the sorted records and
returns the value of the first record whose key matches, `none` on a miss. -/
def Segment.get (s : Segment) (key : String) : Option String :=
  lookupEntries key s.records

/-- Modelled from the spec: `Segment::get` takes `&mut self` only to move the
file cursor, which is not part of the observable segment state; the records
and path are untouched. -/
def Segment.getMut (s : Segment) (key : String) : Option String × Segment :=
  (s.get key, s)

/-- Outcome of an `unwrap` on a failed operation: the process terminates. -/
inductive Panic where
  | panic
deriving DecidableEq, Repr

/-- Result of reading one WAL line, as produced by `BufReader::lines`: either
a decoded UTF-8 line, or a read error (I/O failure or invalid UTF-8). -/
inductive LineRead where
  | ok (line : String)
  | readErr
deriving DecidableEq, Repr

/-- Embedded from `Wal::clear` (store.rs lines 191-194): delete and recreate,
leaving an empty WAL. -/
def Wal.clear : List LineRead := []

/-- Embedded from `Wal::write` (store.rs lines 196-199): format `key=val\n`
and append it; `appendOk = false` models the `write_all` call failing, in
which case the `unwrap` terminates the process. -/
def Wal.write (wal : List LineRead) (key val : String) (appendOk : Bool) :
    Except Panic (List LineRead) :=
  if appendOk then .ok (wal ++ [.ok (key ++ "=" ++ val)]) else .error .panic

/-- Embedded from `Wal::replay` (store.rs lines 201-208): the loop
`while let Some(Ok(line))` stops, returning normally, at the first read
error; a line that fails `Assignment::parse` hits `unwrap` and terminates
the process. -/
def Wal.replay (wal : List LineRead) (m : Memtable) : Except Panic Memtable :=
  match wal with
  | [] => .ok m
  | .readErr :: _ => .ok m
  | .ok line :: rest =>
    match Assignment.parse line with
    | none => .error .panic
    | some a => Wal.replay rest (m.set a.key a.value)

/-- Embedded `Store` (store.rs lines 17-28): directory path, ordered segment
list and WAL content.  The compaction control state carries no data relevant
to the claims. -/
structure Store where
  path : String
  segments : List Segment
  wal : List LineRead
deriving DecidableEq, Repr

/-- Embedded `str::starts_with` on the underlying characters. -/
def strStarts (s pat : String) : Bool :=
  pat.data.isPrefixOf s.data

/-- Embedded from `initialize_store_at_path` (store.rs lines 153-172): walk
the directory entries in the order the filesystem enumerates them, keep every
entry whose file name starts with "segment" and load it; no re-sorting
happens.  Each directory entry is a file name paired with the decoded records
of the file. -/
def loadSegmentsAtPath (dirEntries : List (String × List (String × String))) :
    List Segment :=
  (dirEntries.filter (fun e => strStarts e.1 "segment")).map (fun e => ⟨e.1, e.2⟩)

/-- Embedded from `Store::new` (store.rs lines 54-74): seed the segment list
from the directory scan and open the WAL, whose on-disk content is
`walLines` (empty for a fresh store). -/
def Store.new (path : String) (dirEntries : List (String × List (String × String)))
    (walLines : List LineRead) : Store :=
  { path := path, segments := loadSegmentsAtPath dirEntries, wal := walLines }

/-- Embedded from `Store::get` (store.rs lines 77-85): iterate over the
segment list in reverse and return the first hit. -/
def scanSegments (key : String) : List Segment → Option String
  | [] => none
  | s :: rest =>
    match s.get key with
    | some v => some v
    | none => scanSegments key rest

/-- Embedded `Store::get`, value only. -/
def Store.get (st : Store) (key : String) : Option String :=
  scanSegments key st.segments.reverse

/-- Embedded from `Store::get` with the `&mut` threading made explicit: the
reverse iteration returns the first hit together with the segment list it
leaves behind. -/
def scanSegmentsMut (key : String) : List Segment → Option String × List Segment
  | [] => (none, [])
  | s :: rest =>
    let r := s.getMut key
    match r.1 with
    | some v => (some v, r.2 :: rest)
    | none =>
      let p := scanSegmentsMut key rest
      (p.1, r.2 :: p.2)

/-- Embedded `Store::get` as a state-passing function on the store, mirroring
the `&mut self` receiver. -/
def Store.getMut (st : Store) (key : String) : Option String × Store :=
  let p := scanSegmentsMut key st.segments.reverse
  (p.1, { st with segments := p.2.reverse })

/-- File name of the segment with numeric id `n`. -/
def segmentFileName (n : Nat) : String :=
  "segment-" ++ toString n ++ ".dat"

/-- Embedded from `Store::write_memtable` (store.rs lines 97-124): the new
segment file is named `segment-{len+1}.dat` where `len` is the current length
of the segment list; the segment is appended to the list and the WAL is then
cleared. -/
def Store.writeMemtable (st : Store) (mt : Memtable) : Store :=
  { st with
    segments := st.segments ++ [⟨segmentFileName (st.segments.length + 1), mt.iter⟩],
    wal := Wal.clear }

/-- Embedded from `Store::write_ahead` (store.rs lines 127-129), which
forwards to `Wal::write`. -/
def Store.writeAhead (st : Store) (key val : String) (appendOk : Bool) :
    Except Panic Store :=
  match Wal.write st.wal key val appendOk with
  | .ok w => .ok { st with wal := w }
  | .error e => .error e

/-- Embedded from `Store::replay_wal` (store.rs lines 134-136). -/
def Store.replayWal (st : Store) (m : Memtable) : Except Panic Memtable :=
  Wal.replay st.wal m

/-- Specification-side: digit values of a character list, `none` when some
character is not a decimal digit. -/
def decimalDigits (l : List Char) : Option (List Nat) :=
  l.mapM (fun c => if c.isDigit then some (c.toNat - 48) else none)

/-- Specification-side: the numeric id embedded in a segment file name
`segment-<N>.dat`, read from the characters between the fixed head and the
extension; zero when the middle is not decimal digits. -/
def segmentIdOf (name : String) : Nat :=
  let mid := (name.data.drop 8).take (name.data.length - 12)
  match decimalDigits mid with
  | some ds => ds.foldl (fun acc d => acc * 10 + d) 0
  | none => 0

/-- Big-endian byte list of a `u32`, as produced by `u32::to_be_bytes`. -/
def u32be (n : Nat) : List Nat :=
  [n / 2 ^ 24 % 256, n / 2 ^ 16 % 256, n / 2 ^ 8 % 256, n % 256]

/-- UTF-8 bytes of a string, as produced by `str::as_bytes`. -/
def strBytes (s : String) : List Nat :=
  (s.data.flatMap String.utf8EncodeChar).map (fun b => b.toNat)

/-- Embedded from `Store::write_memtable` (store.rs lines 113-117): one
length-prefixed component, `(component.len() as u32).to_be_bytes()` followed
by the component bytes.  The `as u32` cast truncates the length mod 2^32. -/
def componentBytes (b : List Nat) : List Nat :=
  u32be (b.length % 2 ^ 32) ++ b

/-- Embedded from `Store::write_memtable` (store.rs lines 105-118): the bytes
written for one (key, value) entry of the memtable, the key component
followed by the value component. -/
def recordBytes (key value : String) : List Nat :=
  componentBytes (strBytes key) ++ componentBytes (strBytes value)

/-- Embedded from `Store::write_memtable`: the full byte content of the new
segment file, the per-entry bytes written in iteration order. -/
def writeMemtableFileBytes (mt : Memtable) : List Nat :=
  (mt.iter).flatMap (fun kv => recordBytes kv.1 kv.2)

/-- Specification-side record encoding, following the spec text:
`[key-length:4B-BE][key][value-length:4B-BE][value]`. -/
def specRecordBytes (key value : String) : List Nat :=
  u32be (strBytes key).length ++ strBytes key ++
    (u32be (strBytes value).length ++ strBytes value)

/-- Specification-side segment file content: the concatenation of the record
encodings over the given entries, in list order. -/
def specSegmentBytes (entries : List (String × String)) : List Nat :=
  entries.flatMap (fun kv => specRecordBytes kv.1 kv.2)

/-- Embedded from `Command` (protocol.rs lines 4-9). -/
inductive Command where
  | get
  | set
  | delete
deriving DecidableEq, Repr

/-- Embedded from `Command::from_u8_opt` (protocol.rs lines 12-20). -/
def Command.fromU8Opt (indicator : Nat) : Option Command :=
  if indicator = 1 then some .get
  else if indicator = 2 then some .set
  else if indicator = 3 then some .delete
  else none

/-- Embedded `read_u32` on a big-endian byte stream: consume four bytes and
recompose them, failing when fewer than four bytes remain. -/
def readU32 (s : List Nat) : Option (Nat × List Nat) :=
  match s with
  | b0 :: b1 :: b2 :: b3 :: rest =>
    some (((b0 * 256 + b1) * 256 + b2) * 256 + b3, rest)
  | _ => none

/-- Embedded from `Stream::read_data` (protocol.rs lines 32-38): read a `u32`
big-endian size, then exactly that many bytes; the unread remainder of the
stream is returned alongside. -/
def Stream.readData (s : List Nat) : Option (List Nat × List Nat) :=
  match readU32 s with
  | none => none
  | some (size, rest) =>
    if size ≤ rest.length then some (rest.take size, rest.drop size) else none

/-- Embedded from `Stream::write_data` (protocol.rs lines 53-59): emit
`data.len() as u32` big-endian, then the raw bytes.  The `as u32` cast
truncates the length mod 2^32. -/
def Stream.writeData (data : List Nat) : List Nat :=
  u32be (data.length % 2 ^ 32) ++ data

/-- Embedded from `Stream::read_command_indicator` (protocol.rs lines 25-30):
read one byte and classify it; exactly one byte is consumed. -/
def Stream.readCommandIndicator (s : List Nat) : Option (Option Command × List Nat) :=
  match s with
  | [] => none
  | b :: rest => some (Command.fromU8Opt b, rest)

/-- Specification-side: the step of scanning WAL lines front to back while
remembering the value of the most recent assignment to `key`. -/
def lastValueStep (key : String) (acc : Option String) (line : String) : Option String :=
  match Assignment.parse line with
  | some a => if a.key = key then some a.value else acc
  | none => acc

/-- Specification-side: the value of the last WAL line that parses as an
assignment to `key`, `none` when no line does. -/
def lastValueFor (lines : List String) (key : String) : Option String :=
  lines.foldl (lastValueStep key) none

/-- Specification-side: one replay step as the spec words it, applying a
parsed line via `Memtable::set` and leaving the memtable unchanged on a line
that does not parse. -/
def applyLine (m : Memtable) (line : String) : Memtable :=
  match Assignment.parse line with
  | some a => m.set a.key a.value
  | none => m

theorem scanSegments_eq_none_iff (key : String) (l : List Segment) :
    scanSegments key l = none ↔ ∀ s ∈ l, s.get key = none := by
  induction l with
  | nil => simp [scanSegments]
  | cons hd tl ih =>
    cases h : hd.get key with
    | none => simp [scanSegments, h, ih]
    | some v => simp [scanSegments, h]

theorem scanSegments_append_of_none (key : String) (l1 l2 : List Segment)
    (h : ∀ s ∈ l1, s.get key = none) :
    scanSegments key (l1 ++ l2) = scanSegments key l2 := by
  induction l1 with
  | nil => rfl
  | cons hd tl ih =>
    have h1 : hd.get key = none := h hd (List.mem_cons_self hd tl)
    have h2 : ∀ s ∈ tl, s.get key = none := fun s hs => h s (List.mem_cons_of_mem hd hs)
    simp [scanSegments, h1, ih h2]

theorem scanSegmentsMut_eq (key : String) (l : List Segment) :
    scanSegmentsMut key l = (scanSegments key l, l) := by
  induction l with
  | nil => rfl
  | cons hd tl ih =>
    cases h : hd.get key with
    | some v => simp [scanSegmentsMut, scanSegments, Segment.getMut, h]
    | none => simp [scanSegmentsMut, scanSegments, Segment.getMut, h, ih]

/-- C1: `Store::get` scans the segment list newest to oldest: it returns
`none` exactly when the key is absent from every segment; when the segment
list decomposes as `pre ++ s :: post` with `s` holding the key and every
later (newer) segment in `post` missing it, the result is the value from
`s`, the most recently appended segment containing the key; and the result
depends only on the segment list — no memtable exists in the store state to
be consulted. -/
theorem store_get_newest_wins (st : Store) (key : String) :
    (st.get key = none ↔ ∀ s ∈ st.segments, s.get key = none) ∧
    (∀ pre s post v, st.segments = pre ++ s :: post → s.get key = some v →
      (∀ t ∈ post, t.get key = none) → st.get key = some v) ∧
    (∀ st' : Store, st'.segments = st.segments → st'.get key = st.get key) := by
  refine ⟨?_, ?_, ?_⟩
  · rw [Store.get, scanSegments_eq_none_iff]
    constructor
    · intro h s hs
      exact h s (List.mem_reverse.mpr hs)
    · intro h s hs
      exact h s (List.mem_reverse.mp hs)
  · rintro pre s post v hdec hs hpost
    rw [Store.get, hdec, List.reverse_append, List.reverse_cons, List.append_assoc]
    have hpost' : ∀ t ∈ post.reverse, t.get key = none :=
      fun t ht => hpost t (List.mem_reverse.mp ht)
    rw [scanSegments_append_of_none key post.reverse _ hpost']
    simp [scanSegments, hs]
  · intro st' h
    rw [Store.get, Store.get, h]

/-- Store used to exercise the C1 theorem: two segments both holding key `a`,
the newer one mapping it to `2`. -/
def demoStoreNewestWins : Store :=
  { path := "db",
    segments := [⟨"segment-1.dat", [("a", "1")]⟩, ⟨"segment-2.dat", [("a", "2")]⟩],
    wal := [] }

/-- Witness for C1: in the two-segment demo store the newest segment wins,
`get "a"` returning its value `2`. -/
theorem store_get_newest_wins_witness :
    demoStoreNewestWins.segments =
      [⟨"segment-1.dat", [("a", "1")]⟩] ++ (⟨"segment-2.dat", [("a", "2")]⟩ : Segment) :: [] ∧
    (⟨"segment-2.dat", [("a", "2")]⟩ : Segment).get "a" = some "2" ∧
    demoStoreNewestWins.get "a" = some "2" :=
  ⟨rfl, by decide,
    (store_get_newest_wins demoStoreNewestWins "a").2.1
      [⟨"segment-1.dat", [("a", "1")]⟩] ⟨"segment-2.dat", [("a", "2")]⟩ [] "2"
      rfl (by decide) (by simp)⟩

/-- C2: the startup directory scan keeps filesystem enumeration order.  For
the enumeration [segment-10.dat, segment-2.dat] the constructed segment list
carries the embedded ids [10, 2], which is not ascending: the code never
re-sorts, while the claim requires ascending id order regardless of the
enumeration order. -/
theorem store_new_keeps_enumeration_order :
    ((Store.new "db" [("segment-10.dat", []), ("segment-2.dat", [])] []).segments.map
        (fun s => segmentIdOf s.path)) = [10, 2] ∧
    ¬ List.Pairwise (fun a b => a ≤ b)
        ((Store.new "db" [("segment-10.dat", []), ("segment-2.dat", [])] []).segments.map
          (fun s => segmentIdOf s.path)) := by
  constructor
  · decide
  · decide

/-- C3: `write_memtable` names the new segment `segment-{len+1}.dat` from the
segment list length.  In a store whose directory held segment-2.dat and
segment-3.dat (the shape compaction leaves behind), the flush computes
segment-3.dat — the name of a segment already present, so the id is reused
rather than strictly greater than every existing id.  The TODO comment at
store.rs lines 100-102 acknowledges exactly this defect. -/
theorem write_memtable_reuses_segment_id :
    ((Store.new "db" [("segment-2.dat", []), ("segment-3.dat", [])] []).writeMemtable
        Memtable.empty).segments.map Segment.path =
      ["segment-2.dat", "segment-3.dat", "segment-3.dat"] := by
  decide

/-- C4 (amended): `write_ahead` appends exactly one assignment line to the
WAL when the append succeeds; when the append cannot be completed, the
`unwrap` inside `Wal::write` terminates the process instead of returning an
I/O error value — the Rust signature offers the caller no error channel. -/
theorem write_ahead_appends_one_line (st : Store) (key val : String) :
    st.writeAhead key val true =
      .ok { st with wal := st.wal ++ [.ok (key ++ "=" ++ val)] } ∧
    st.writeAhead key val false = .error .panic := by
  exact ⟨rfl, rfl⟩

/-- C4 counterexample: at a concrete store, a failing WAL append ends in a
panic, i.e. process termination; no I/O error result is surfaced to the
caller, so the engine is not left usable by this code path. -/
theorem write_ahead_failure_terminates :
    (Store.new "db" [] []).writeAhead "k" "v" false = .error .panic := by
  rfl

/-- C5: `write_memtable` clears the WAL as its final step, so replaying the
WAL of the flushed store into a fresh memtable yields zero entries. -/
theorem wal_cleared_after_flush (st : Store) (mt : Memtable) :
    (st.writeMemtable mt).wal = [] ∧
    (st.writeMemtable mt).replayWal Memtable.empty = .ok Memtable.empty ∧
    Memtable.empty.entries = [] := by
  exact ⟨rfl, rfl, rfl⟩

/-- C7: evaluation at the failing input.  A WAL whose first line read fails
(I/O error or invalid UTF-8 — e.g. a crash boundary that truncated a
multi-byte character) followed by a line that does not parse as key=value:
the loop `while let Some(Ok(line))` stops at the read error and `replay`
returns normally with nothing recovered — it reports success instead of
failing, contradicting the claim that a corrupted WAL can never be silently
skipped past while reporting success. -/
theorem replay_swallows_read_error :
    Wal.replay [LineRead.readErr, LineRead.ok "notanassignment"] Memtable.empty =
      .ok Memtable.empty := by
  rfl

/-- C10: `Store::get` is read-only at the public interface: threading the
mutable receiver through the embedded get leaves the segment list (both
membership and order), the WAL content and the directory path unchanged, and
returns the same value as the pure scan. -/
theorem store_get_leaves_store_unchanged (st : Store) (key : String) :
    (st.getMut key).2.segments = st.segments ∧
    (st.getMut key).2.wal = st.wal ∧
    (st.getMut key).2.path = st.path ∧
    (st.getMut key).1 = st.get key := by
  simp [Store.getMut, Store.get, scanSegmentsMut_eq]

theorem lookupEntries_setEntries (key key' value : String) (l : List (String × String)) :
    lookupEntries key' (setEntries key value l) =
      if key' = key then some value else lookupEntries key' l := by
  induction l with
  | nil => simp [setEntries, lookupEntries]
  | cons hd tl ih =>
    obtain ⟨k, v⟩ := hd
    by_cases hlt : strLt key k
    · by_cases h' : key' = key <;> simp [setEntries, hlt, lookupEntries, h']
    · by_cases heq : key = k
      · subst heq
        by_cases h' : key' = key <;> simp [setEntries, hlt, lookupEntries, h']
      · by_cases h'k : key' = k
        · have hne : key' ≠ key := fun hc => heq (hc.symm.trans h'k)
          have hkne : k ≠ key := fun hc => heq hc.symm
          simp [setEntries, hlt, heq, lookupEntries, h'k, hne, hkne]
        · simp [setEntries, hlt, heq, lookupEntries, h'k, ih]

theorem memtable_get_set (m : Memtable) (key key' value : String) :
    (m.set key value).get key' =
      if key' = key then some value else m.get key' :=
  lookupEntries_setEntries key key' value m.entries

theorem replay_eq_foldl (lines : List String) (m : Memtable)
    (h : ∀ line ∈ lines, (Assignment.parse line).isSome) :
    Wal.replay (lines.map LineRead.ok) m = .ok (lines.foldl applyLine m) := by
  induction lines generalizing m with
  | nil => rfl
  | cons l rest ih =>
    have hl : (Assignment.parse l).isSome := h l (List.mem_cons_self l rest)
    obtain ⟨a, ha⟩ := Option.isSome_iff_exists.mp hl
    have hrest : ∀ line ∈ rest, (Assignment.parse line).isSome :=
      fun x hx => h x (List.mem_cons_of_mem l hx)
    simp only [List.map_cons, List.foldl_cons]
    rw [show Wal.replay (LineRead.ok l :: rest.map LineRead.ok) m =
        Wal.replay (rest.map LineRead.ok) (m.set a.key a.value) from by
      simp [Wal.replay, ha]]
    rw [show applyLine m l = m.set a.key a.value from by simp [applyLine, ha]]
    exact ih _ hrest

theorem foldl_lastValueStep_init (key : String) (lines : List String) (acc : Option String) :
    lines.foldl (lastValueStep key) acc =
      match lines.foldl (lastValueStep key) none with
      | some v => some v
      | none => acc := by
  induction lines generalizing acc with
  | nil => simp
  | cons l rest ih =>
    rw [List.foldl_cons, List.foldl_cons]
    rw [ih (lastValueStep key acc l), ih (lastValueStep key none l)]
    cases hr : rest.foldl (lastValueStep key) none with
    | some v => simp
    | none =>
      cases hp : Assignment.parse l with
      | none => simp [lastValueStep, hp]
      | some a =>
        by_cases hk : a.key = key
        · simp [lastValueStep, hp, hk]
        · simp [lastValueStep, hp, hk]

theorem get_foldl_applyLine (lines : List String) (m : Memtable) (key : String) :
    (lines.foldl applyLine m).get key =
      match lastValueFor lines key with
      | some v => some v
      | none => m.get key := by
  induction lines generalizing m with
  | nil => simp [lastValueFor]
  | cons l rest ih =>
    rw [List.foldl_cons, ih (applyLine m l)]
    simp only [lastValueFor, List.foldl_cons]
    rw [foldl_lastValueStep_init key rest (lastValueStep key none l)]
    cases hr : rest.foldl (lastValueStep key) none with
    | some v => simp
    | none =>
      cases hp : Assignment.parse l with
      | none => simp [applyLine, lastValueStep, hp]
      | some a =>
        by_cases hk : a.key = key
        · simp [applyLine, lastValueStep, hp, hk, memtable_get_set]
        · have hne : key ≠ a.key := fun hc => hk hc.symm
          simp [applyLine, lastValueStep, hp, hk, memtable_get_set, hne]

/-- C6: when every line of the WAL parses as `key=value`, replay succeeds and
equals the in-order left fold of `Memtable::set` over the lines, front to
back; consequently, for any key assigned by some line, the final memtable
holds the value of the last line assigning it. -/
theorem replay_applies_in_order_last_write_wins (lines : List String) (m : Memtable)
    (h : ∀ line ∈ lines, (Assignment.parse line).isSome) :
    Wal.replay (lines.map LineRead.ok) m = .ok (lines.foldl applyLine m) ∧
    ∀ key value, lastValueFor lines key = some value →
      (lines.foldl applyLine m).get key = some value := by
  refine ⟨replay_eq_foldl lines m h, ?_⟩
  intro key value hv
  rw [get_foldl_applyLine, hv]

/-- Witness for C6: replaying `x=1` then `x=2` into an empty memtable ends
with `x` mapped to `2`, the value of the later line. -/
theorem replay_applies_in_order_last_write_wins_witness :
    (∀ line ∈ ["x=1", "x=2"], (Assignment.parse line).isSome) ∧
    Wal.replay (["x=1", "x=2"].map LineRead.ok) Memtable.empty =
      .ok (["x=1", "x=2"].foldl applyLine Memtable.empty) ∧
    (["x=1", "x=2"].foldl applyLine Memtable.empty).get "x" = some "2" :=
  ⟨by decide,
    (replay_applies_in_order_last_write_wins ["x=1", "x=2"] Memtable.empty (by decide)).1,
    (replay_applies_in_order_last_write_wins ["x=1", "x=2"] Memtable.empty (by decide)).2
      "x" "2" (by decide)⟩

theorem recordBytes_eq_spec (key value : String)
    (hk : (strBytes key).length < 2 ^ 32) (hv : (strBytes value).length < 2 ^ 32) :
    recordBytes key value = specRecordBytes key value := by
  rw [recordBytes, specRecordBytes, componentBytes, componentBytes,
    Nat.mod_eq_of_lt hk, Nat.mod_eq_of_lt hv]

theorem flatMap_recordBytes_eq_spec (l : List (String × String))
    (h : ∀ kv ∈ l, (strBytes kv.1).length < 2 ^ 32 ∧ (strBytes kv.2).length < 2 ^ 32) :
    l.flatMap (fun kv => recordBytes kv.1 kv.2) =
      l.flatMap (fun kv => specRecordBytes kv.1 kv.2) := by
  induction l with
  | nil => rfl
  | cons hd tl ih =>
    have hhd := h hd (List.mem_cons_self hd tl)
    have htl : ∀ kv ∈ tl, (strBytes kv.1).length < 2 ^ 32 ∧ (strBytes kv.2).length < 2 ^ 32 :=
      fun kv hk => h kv (List.mem_cons_of_mem hd hk)
    simp only [List.flatMap_cons]
    rw [recordBytes_eq_spec hd.1 hd.2 hhd.1 hhd.2, ih htl]

/-- C8: for a well-formed memtable (entries strictly ascending by key) whose
keys and values are each shorter than 2^32 bytes, the byte content
`write_memtable` puts in the new segment file is exactly the concatenation,
over the entries in ascending key order, of
`[key-length:4B-BE][key][value-length:4B-BE][value]`, with no other bytes. -/
theorem segment_bytes_match_spec_encoding (mt : Memtable) (hwf : mt.WF)
    (hsmall : ∀ kv ∈ mt.entries,
      (strBytes kv.1).length < 2 ^ 32 ∧ (strBytes kv.2).length < 2 ^ 32) :
    writeMemtableFileBytes mt = specSegmentBytes mt.entries ∧
    (mt.entries.map Prod.fst).Pairwise (fun a b => strLt a b = true) := by
  constructor
  · rw [writeMemtableFileBytes, Memtable.iter, specSegmentBytes]
    exact flatMap_recordBytes_eq_spec mt.entries hsmall
  · exact List.pairwise_map.mpr hwf

/-- Memtable used to exercise the C8 theorem, built by two `set` calls. -/
def demoMemtable : Memtable :=
  (Memtable.empty.set "b" "2").set "a" "1"

/-- Witness for C8: at the two-entry demo memtable the hypotheses hold and
the written bytes equal the spec encoding over its ascending entries. -/
theorem segment_bytes_match_spec_encoding_witness :
    demoMemtable.WF ∧
    (∀ kv ∈ demoMemtable.entries,
      (strBytes kv.1).length < 2 ^ 32 ∧ (strBytes kv.2).length < 2 ^ 32) ∧
    (writeMemtableFileBytes demoMemtable = specSegmentBytes demoMemtable.entries ∧
      (demoMemtable.entries.map Prod.fst).Pairwise (fun a b => strLt a b = true)) :=
  ⟨by decide, by decide,
    segment_bytes_match_spec_encoding demoMemtable (by decide) (by decide)⟩

theorem readU32_u32be (n : Nat) (h : n < 2 ^ 32) (rest : List Nat) :
    readU32 (u32be n ++ rest) = some (n, rest) := by
  have harith :
      ((n / 2 ^ 24 % 256 * 256 + n / 2 ^ 16 % 256) * 256 + n / 2 ^ 8 % 256) * 256 + n % 256
        = n := by
    have h24 : (2 : Nat) ^ 24 = 16777216 := by norm_num
    have h16 : (2 : Nat) ^ 16 = 65536 := by norm_num
    have h8 : (2 : Nat) ^ 8 = 256 := by norm_num
    have h32 : (2 : Nat) ^ 32 = 4294967296 := by norm_num
    rw [h24, h16, h8]
    rw [h32] at h
    omega
  simp only [u32be, List.cons_append, List.nil_append, readU32]
  rw [harith]

/-- C9 (amended): for every payload of fewer than 2^32 bytes, `write_data`
followed by `read_data` returns exactly the original bytes, leaving the rest
of the stream untouched; and an indicator byte of 9 is reported as an
unrecognized command with exactly one byte (the indicator itself) consumed. -/
theorem data_roundtrip_and_unknown_indicator (data rest : List Nat)
    (h : data.length < 2 ^ 32) :
    Stream.readData (Stream.writeData data ++ rest) = some (data, rest) ∧
    Stream.readCommandIndicator (9 :: rest) = some (none, rest) := by
  constructor
  · rw [Stream.writeData, Nat.mod_eq_of_lt h, List.append_assoc]
    rw [Stream.readData, readU32_u32be data.length h]
    simp [List.take_left, List.drop_left]
  · rfl

/-- Witness for C9: a two-byte payload round-trips through the framing and a
trailing byte is left unread; the indicator 9 is unrecognized. -/
theorem data_roundtrip_and_unknown_indicator_witness :
    ([7, 8] : List Nat).length < 2 ^ 32 ∧
    (Stream.readData (Stream.writeData [7, 8] ++ [5]) = some ([7, 8], [5]) ∧
      Stream.readCommandIndicator (9 :: [5]) = some (none, [5])) :=
  ⟨by decide, data_roundtrip_and_unknown_indicator [7, 8] [5] (by decide)⟩

/-- C9 counterexample: a payload of 2^32 zero bytes.  The cast
`data.len() as u32` truncates the length to 0, so the receiving side decodes
the empty payload, not the original byte sequence (the TODO at protocol.rs
line 54 notes the missing bounds check). -/
theorem data_roundtrip_truncates_large_payload :
    Stream.readData (Stream.writeData (List.replicate (2 ^ 32) 0)) =
      some (([] : List Nat), List.replicate (2 ^ 32) 0) ∧
    List.replicate (2 ^ 32) (0 : Nat) ≠ ([] : List Nat) := by
  constructor
  · rw [Stream.writeData, List.length_replicate, Nat.mod_self]
    have h0 : u32be 0 = [0, 0, 0, 0] := by decide
    rw [h0]
    simp only [List.cons_append, List.nil_append, Stream.readData, readU32]
    norm_num
  · intro hcontr
    have hlen := congrArg List.length hcontr
    rw [List.length_replicate, List.length_nil] at hlen
    norm_num at hlen

end LogKv
